import Mathlib

/-!
Verification of the `webtodo` repository's persistence layer.

The repository stores a single-user task list in a JSON file
(`src/to_do/dal/src/json_file.rs`) and builds tagged items on top of it
(`src/to_do/core/src/api/basic_actions/creates.rs`).

Shallow embedding conventions:

* The backing file is modelled as `Option (List Char)` (`none` = file absent),
  together with a counter of completed write-to-file operations.  Each store
  operation opens a fresh handle via `get_handle`, which creates the file if
  absent, exactly as `OpenOptions::new().read(true).write(true).create(true)`.
* Crucially, `OpenOptions` in `save_all` is NOT given `.truncate(true)`, and
  `write_all` writes from offset 0 of the fresh handle.  So a write replaces a
  prefix of the previous content and leaves the previous tail in place.  The
  model reproduces this: the new content is `json ++ old.drop json.length`.
* The in-memory `HashMap<String, T>` is modelled as an association list
  `List (String × T)` kept sorted by key with unique keys (Rust's iteration
  order is unspecified; the model fixes a canonical order, on which none of
  the verified properties depend).
* `serde_json` (an external collaborator; spec §6 describes the format as a
  pretty-printed JSON object keyed by identifier) is modelled by an executable
  pretty-printer and parser over `List Char`: 2-space indentation, string
  escaping, leading/trailing whitespace tolerance, rejection of trailing
  non-whitespace ("trailing characters" in serde), and failure on empty input.
* Item types are opaque to the store (spec §1); the store is parameterized by
  a `Codec` giving the item's serialization and (prefix) parser, with the
  round-trip laws gathered in `LawfulCodec`.
-/

namespace WebTodo

/-! ### JSON lexical layer (models serde_json's reader/writer) -/

/-- Whitespace accepted by the JSON parser between tokens. -/
def isWs (c : Char) : Bool :=
  c = ' ' || c = '\t' || c = '\n' || c = '\r'

/-- Skip whitespace characters at the front of the input. -/
def skipWs : List Char → List Char
  | [] => []
  | c :: r => if isWs c then skipWs r else c :: r

/-- Lower-case hexadecimal digit for `n < 16` (as emitted by serde's
`\u00XX` escapes). -/
def hexDigit (n : Nat) : Char :=
  if n < 10 then Char.ofNat ('0'.toNat + n) else Char.ofNat ('a'.toNat + n - 10)

/-- Value of a hexadecimal digit character. -/
def unhex (c : Char) : Option Nat :=
  if '0' ≤ c ∧ c ≤ '9' then some (c.toNat - '0'.toNat)
  else if 'a' ≤ c ∧ c ≤ 'f' then some (c.toNat - 'a'.toNat + 10)
  else if 'A' ≤ c ∧ c ≤ 'F' then some (c.toNat - 'A'.toNat + 10)
  else none

/-- JSON string escaping of one character, as performed by serde_json when
writing a string: `"` and `\` get a backslash escape, the common control
characters get their short escapes, the remaining control characters get a
`\u00XX` escape, and everything else is written verbatim. -/
def escapeChar (c : Char) : List Char :=
  if c = '"' then ['\\', '"']
  else if c = '\\' then ['\\', '\\']
  else if c = '\n' then ['\\', 'n']
  else if c = '\r' then ['\\', 'r']
  else if c = '\t' then ['\\', 't']
  else if c.toNat = 8 then ['\\', 'b']
  else if c.toNat = 12 then ['\\', 'f']
  else if c.toNat < 32 then ['\\', 'u', '0', '0', hexDigit (c.toNat / 16), hexDigit (c.toNat % 16)]
  else [c]

/-- JSON string escaping of a whole string body. -/
def escapeStr (s : List Char) : List Char :=
  (s.map escapeChar).flatten

/-- Decoding of a single-character escape (the character after a `\`). -/
def unescSimple (c : Char) : Option Char :=
  if c = '"' then some '"'
  else if c = '\\' then some '\\'
  else if c = '/' then some '/'
  else if c = 'n' then some '\n'
  else if c = 'r' then some '\r'
  else if c = 't' then some '\t'
  else if c = 'b' then some (Char.ofNat 8)
  else if c = 'f' then some (Char.ofNat 12)
  else none

/-- Parse the body of a JSON string after the opening quote, returning the
unescaped characters and the input following the closing quote.  Mirrors the
serde reader: raw control characters are rejected, `\uXXXX` escapes are
decoded (the model stops at the basic plane below the surrogate range, which
covers every escape the writer emits), and an unterminated or malformed
escape fails. -/
def parseStrChars : List Char → Option (List Char × List Char)
  | [] => none
  | c :: r =>
    if c = '"' then some ([], r)
    else if c = '\\' then
      match r with
      | 'u' :: h1 :: h2 :: h3 :: h4 :: r2 =>
        match unhex h1, unhex h2, unhex h3, unhex h4 with
        | some a, some b, some d, some e =>
          let n := ((a * 16 + b) * 16 + d) * 16 + e
          if n < 0xd800 then
            match parseStrChars r2 with
            | some (s, rest) => some (Char.ofNat n :: s, rest)
            | none => none
          else none
        | _, _, _, _ => none
      | e :: r2 =>
        match unescSimple e with
        | some ch =>
          match parseStrChars r2 with
          | some (s, rest) => some (ch :: s, rest)
          | none => none
        | none => none
      | [] => none
    else if c.toNat < 32 then none
    else
      match parseStrChars r with
      | some (s, rest) => some (c :: s, rest)
      | none => none

/-! ### The in-memory collection (models `HashMap<String, T>`) -/

/-- Strict lexicographic order on character lists (by code point), used only
to fix the model's canonical key order (Rust's `HashMap` iteration order is
unspecified). -/
def charsLt : List Char → List Char → Bool
  | [], [] => false
  | [], _ :: _ => true
  | _ :: _, [] => false
  | c₁ :: r₁, c₂ :: r₂ =>
    if c₁.toNat < c₂.toNat then true
    else if c₂.toNat < c₁.toNat then false
    else charsLt r₁ r₂

/-- Canonical strict order on keys. -/
def keyLt (a b : String) : Bool :=
  charsLt a.data b.data

/-- Insert-or-overwrite into the canonical (key-sorted) association list;
models `HashMap::insert`. -/
def insertKV {T : Type} (k : String) (v : T) : List (String × T) → List (String × T)
  | [] => [(k, v)]
  | (k₂, v₂) :: m =>
    if k = k₂ then (k, v) :: m
    else if keyLt k k₂ then (k, v) :: (k₂, v₂) :: m
    else (k₂, v₂) :: insertKV k v m

/-- Remove a key if present; models `HashMap::remove` (on a map with unique
keys). -/
def removeKV {T : Type} (k : String) : List (String × T) → List (String × T)
  | [] => []
  | (k₂, v₂) :: m => if k = k₂ then m else (k₂, v₂) :: removeKV k m

/-- Key lookup; models `HashMap::get`. -/
def lookupKV {T : Type} (k : String) : List (String × T) → Option T
  | [] => none
  | (k₂, v₂) :: m => if k = k₂ then some v₂ else lookupKV k m

/-- The canonical-form invariant of the association list model: keys strictly
increasing, hence unique. -/
def sortedKeys {T : Type} (m : List (String × T)) : Prop :=
  List.Pairwise (fun a b => keyLt a.1 b.1 = true) m

instance {T : Type} (m : List (String × T)) : Decidable (sortedKeys m) :=
  inferInstanceAs (Decidable (List.Pairwise _ m))

/-! ### Item codecs (the store is generic over the item type, spec §1/§9) -/

/-- Serialization/deserialization capability of the opaque item type `T`
(spec §9: "a store parameterized over an explicit serializer/deserializer
pair").  `pretty ind t` is the pretty-printed form of `t` at nesting depth
`ind`; `parse` consumes a serialized item from the front of the input and
returns the leftover input. -/
structure Codec (T : Type) where
  pretty : Nat → T → List Char
  parse : List Char → Option (T × List Char)

/-- The codec laws needed for round-tripping: parsing a pretty-printed item
followed by a JSON delimiter returns exactly the item and the delimiter, and
a pretty-printed item never starts with whitespace. -/
structure LawfulCodec {T : Type} (c : Codec T) : Prop where
  parse_pretty : ∀ (ind : Nat) (t : T) (rest : List Char),
    rest.head? = some ',' ∨ rest.head? = some '\n' →
    c.parse (c.pretty ind t ++ rest) = some (t, rest)
  pretty_head : ∀ (ind : Nat) (t : T),
    ∃ ch r, c.pretty ind t = ch :: r ∧ isWs ch = false

/-! ### Pretty-printing of the whole collection
(models `serde_json::to_string_pretty` of the `HashMap`) -/

/-- One serialized `"key": value` member (without indentation). -/
def prettyKV {T : Type} (c : Codec T) (k : String) (v : T) : List Char :=
  '"' :: (escapeStr k.data ++ '"' :: ':' :: ' ' :: c.pretty 1 v)

/-- The members of a non-empty object, starting at the first key character;
later members are preceded by `",\n"` and the two-space indent. -/
def entriesTail {T : Type} (c : Codec T) : List (String × T) → List Char
  | [] => []
  | [(k, v)] => prettyKV c k v
  | (k, v) :: m => prettyKV c k v ++ ',' :: '\n' :: ' ' :: ' ' :: entriesTail c m

/-- Pretty-printed JSON object for the whole mapping: `{}` when empty,
otherwise one member per line indented by two spaces. -/
def prettyMap {T : Type} (c : Codec T) (m : List (String × T)) : List Char :=
  match m with
  | [] => ['{', '}']
  | _ => '{' :: '\n' :: ' ' :: ' ' :: (entriesTail c m ++ '\n' :: '}' :: [])

/-! ### Parsing of the whole collection (models `serde_json::from_str`) -/

/-- Parse the members of a non-empty object, positioned at the opening quote
of the first key.  The `fuel` argument only bounds the recursion; every
iteration consumes at least three characters of input, so the fuel chosen by
`parseObj` (input length + 1) can never be exhausted before the input is. -/
def parseMembers {T : Type} (ip : List Char → Option (T × List Char)) :
    Nat → List Char → Option (List (String × T) × List Char)
  | 0, _ => none
  | fuel + 1, s =>
    match s with
    | '"' :: r =>
      match parseStrChars r with
      | some (kchars, r2) =>
        match skipWs r2 with
        | ':' :: r3 =>
          match ip (skipWs r3) with
          | some (v, r4) =>
            match skipWs r4 with
            | ',' :: r5 =>
              match parseMembers ip fuel (skipWs r5) with
              | some (es, r6) => some ((String.mk kchars, v) :: es, r6)
              | none => none
            | '}' :: r5 => some ([(String.mk kchars, v)], r5)
            | _ => none
          | none => none
        | _ => none
      | none => none
    | _ => none

/-- Parse one JSON object from the front of the input (leading whitespace
allowed), returning the members in textual order and the leftover input. -/
def parseObj {T : Type} (ip : List Char → Option (T × List Char)) (s : List Char) :
    Option (List (String × T) × List Char) :=
  match skipWs s with
  | '{' :: r =>
    match skipWs r with
    | '}' :: r2 => some ([], r2)
    | r1 => parseMembers ip (r1.length + 1) r1
  | _ => none

/-- Full-input deserialization of `HashMap<String, T>`, models
`serde_json::from_str`: the whole input must be one object followed only by
whitespace (serde's "trailing characters" check); in particular empty input
fails.  Members are folded into the map with insert semantics, so a repeated
key keeps the last occurrence, as `HashMap` does. -/
def fromStr {T : Type} (ip : List Char → Option (T × List Char)) (s : List Char) :
    Option (List (String × T)) :=
  match parseObj ip s with
  | some (es, rest) =>
    if skipWs rest = [] then some (es.foldl (fun acc kv => insertKV kv.1 kv.2 acc) []) else none
  | none => none

/-! ### The file-backed store (`src/to_do/dal/src/json_file.rs`) -/

/-- Error taxonomy of spec §7.  The source returns plain `String` messages;
the constructors correspond to the message families `"Error opening file:
..."` / `"Error reading file: ..."` (IO), `"Error parsing JSON: ..."` /
`"Error serializing JSON: ..."` (format) and `"Task with id ... not found"`
(not-found, carrying the id). -/
inductive StoreError
  | ioError : StoreError
  | formatError : StoreError
  | notFound : String → StoreError
deriving DecidableEq

instance {e a : Type} [DecidableEq e] [DecidableEq a] : DecidableEq (Except e a) := fun x y =>
  match x, y with
  | .ok u, .ok w =>
    if h : u = w then isTrue (congrArg Except.ok h)
    else isFalse (fun he => h (Except.ok.inj he))
  | .error u, .error w =>
    if h : u = w then isTrue (congrArg Except.error h)
    else isFalse (fun he => h (Except.error.inj he))
  | .ok _, .error _ => isFalse (fun he => Except.noConfusion he)
  | .error _, .ok _ => isFalse (fun he => Except.noConfusion he)

/-- File-system state: the backing file's content (`none` = not created yet)
and a count of completed file-write operations (used to express that an
operation really performed a write). -/
structure FsState where
  file : Option (List Char)
  writes : Nat
deriving DecidableEq

/-- Content visible through a freshly opened handle. -/
def fileContent (s : FsState) : List Char :=
  s.file.getD []

/-- `get_handle` (json_file.rs:17-26): open the backing file read/write,
creating it empty if absent.  Path resolution (`JSON_STORE_PATH`, default
`tasks.json`) selects a single resource and is collapsed into the one
modelled file; environment-level IO failures (permissions, invalid path) are
outside the model, so opening succeeds. -/
def get_handle (s : FsState) : FsState :=
  { s with file := some (fileContent s) }

/-- `get_all` (json_file.rs:47-55): open, read the full content, deserialize
it as a map.  Fails with a format error whenever the content is not exactly
one JSON object (empty file included). -/
def get_all {T : Type} (c : Codec T) (s : FsState) :
    Except StoreError (List (String × T)) × FsState :=
  (match fromStr c.parse (fileContent s) with
   | some m => .ok m
   | none => .error .formatError,
   get_handle s)

/-- `save_all` (json_file.rs:82-87): open (create-if-absent), serialize the
whole mapping pretty-printed, and `write_all` it.  The handle is opened
WITHOUT `.truncate(true)` and writes from offset 0, so the previous content
is only overwritten up to the new serialization's length; any previous tail
beyond it survives.  Serialization of well-formed items and the modelled
write always succeed. -/
def save_all {T : Type} (c : Codec T) (m : List (String × T)) (s : FsState) :
    Except StoreError Unit × FsState :=
  let old := fileContent s
  let json := prettyMap c m
  (.ok (), { file := some (json ++ old.drop json.length), writes := s.writes + 1 })

/-- `get_one` (json_file.rs:112-118): load the full map, then look the id up;
a missing id is the not-found error, load failures propagate. -/
def get_one {T : Type} (c : Codec T) (id : String) (s : FsState) :
    Except StoreError T × FsState :=
  match get_all c s with
  | (.ok m, s1) =>
    match lookupKV id m with
    | some t => (.ok t, s1)
    | none => (.error (.notFound id), s1)
  | (.error e, s1) => (.error e, s1)

/-- `unwrap_or_else(|_| HashMap::new())` applied to `get_all`'s result. -/
def unwrapOrEmpty {T : Type} (r : Except StoreError (List (String × T))) :
    List (String × T) :=
  match r with
  | .ok m => m
  | .error _ => []

/-- `save_one` (json_file.rs:146-150): load the full map, substituting the
empty map on ANY load failure, upsert the item at the id, and save all. -/
def save_one {T : Type} (c : Codec T) (id : String) (t : T) (s : FsState) :
    Except StoreError Unit × FsState :=
  save_all c (insertKV id t (unwrapOrEmpty (get_all c s).1)) (get_all c s).2

/-- `delete_one` (json_file.rs:176-180): load the full map, substituting the
empty map on ANY load failure, remove the id if present, and save all. -/
def delete_one {T : Type} (c : Codec T) (id : String) (s : FsState) :
    Except StoreError Unit × FsState :=
  save_all c (removeKV id (unwrapOrEmpty (get_all c s).1)) (get_all c s).2

/-! ### The item factory (`src/to_do/core/src/api/basic_actions/creates.rs`)

The task/status domain types live in the crate's `structs`/`enums` modules,
which are not part of the provided sources; they are modelled from the spec
(§4.2/§9: a two-variant tagged result, pending/done, each variant wrapping a
shared title/status payload). -/

/-- Modelled from the spec: the status enum `TaskStatus` with variants
`PENDING` and `DONE` (referenced by creates.rs). -/
inductive TaskStatus
  | PENDING
  | DONE
deriving DecidableEq

/-- Modelled from the spec: the shared payload structure holding the title
and the status. -/
structure Base where
  title : String
  status : TaskStatus
deriving DecidableEq

/-- Modelled from the spec: the pending task struct wrapping the shared
payload (field name `super_struct` as used by creates.rs). -/
structure Pending where
  super_struct : Base
deriving DecidableEq

/-- Modelled from the spec: the done task struct wrapping the shared
payload. -/
structure Done where
  super_struct : Base
deriving DecidableEq

/-- Modelled from the spec: `Pending::new` builds the payload with the given
title and pending status. -/
def Pending.new (title : String) : Pending :=
  ⟨⟨title, TaskStatus.PENDING⟩⟩

/-- Modelled from the spec: `Done::new` builds the payload with the given
title and done status. -/
def Done.new (title : String) : Done :=
  ⟨⟨title, TaskStatus.DONE⟩⟩

/-- The tagged result type of creates.rs. -/
inductive ItemTypes
  | Done : Done → ItemTypes
  | Pending : Pending → ItemTypes
deriving DecidableEq

/-- The `fmt::Display` implementation of creates.rs:16-23: either variant
renders exactly its payload's title. -/
def ItemTypes.display : ItemTypes → String
  | .Done d => d.super_struct.title
  | .Pending p => p.super_struct.title

/-- Codec for `TaskStatus` as persisted by `save_one(&title, &status)`: a
serde unit variant serializes as the bare JSON string of the variant name,
and deserializing any other string is an unknown-variant error. -/
def statusCodec : Codec TaskStatus where
  pretty := fun _ st =>
    match st with
    | .PENDING => "\"PENDING\"".data
    | .DONE => "\"DONE\"".data
  parse := fun s =>
    match s with
    | '"' :: r =>
      match parseStrChars r with
      | some (k, rest) =>
        if k = "PENDING".data then some (.PENDING, rest)
        else if k = "DONE".data then some (.DONE, rest)
        else none
      | none => none
    | _ => none

/-- `create` (creates.rs:25-35): first persist via `save_one`, passing the
TITLE as identifier and the STATUS as the stored value (`&status`), then
build and return the tagged item; a `save_one` failure propagates. -/
def create (title : String) (status : TaskStatus) (s : FsState) :
    Except StoreError ItemTypes × FsState :=
  match save_one statusCodec title status s with
  | (.ok _, s1) =>
    match status with
    | .PENDING => (.ok (ItemTypes.Pending (Pending.new title)), s1)
    | .DONE => (.ok (ItemTypes.Done (Done.new title)), s1)
  | (.error e, s1) => (.error e, s1)

/-- A concrete opaque item type for exercising the generic store: JSON
booleans, whose serde forms are `true` and `false`. -/
def boolCodec : Codec Bool where
  pretty := fun _ b => (if b then "true" else "false").data
  parse := fun s =>
    match s with
    | 't' :: 'r' :: 'u' :: 'e' :: r => some (true, r)
    | 'f' :: 'a' :: 'l' :: 's' :: 'e' :: r => some (false, r)
    | _ => none

/-- Modelled from the spec: if the constructed item itself were persisted (as
claim C1's sentence asserts), it would serialize as the variant payload's
object form `{"title": ..., "status": ...}` (spec §9: each variant holds the
shared title/status payload).  Only used to state that the file `create`
actually writes does not deserialize as the item. -/
def itemTypesCodec : Codec ItemTypes where
  pretty := fun ind it =>
    let b := match it with
      | .Done d => d.super_struct
      | .Pending p => p.super_struct
    let pad := List.replicate (2 * (ind + 1)) ' '
    let padEnd := List.replicate (2 * ind) ' '
    '{' :: '\n' :: pad ++ ('"' :: "title".data ++ '"' :: ':' :: ' ' :: '"' :: escapeStr b.title.data ++ ['"']) ++
      ',' :: '\n' :: pad ++ ('"' :: "status".data ++ '"' :: ':' :: ' ' :: statusCodec.pretty 0 b.status) ++
      '\n' :: padEnd ++ ['}']
  parse := fun s =>
    match s with
    | '{' :: r =>
      match skipWs r with
      | '"' :: r1 =>
        match parseStrChars r1 with
        | some (f1, r2) =>
          if f1 = "title".data then
            match skipWs r2 with
            | ':' :: r3 =>
              match skipWs r3 with
              | '"' :: r4 =>
                match parseStrChars r4 with
                | some (title, r5) =>
                  match skipWs r5 with
                  | ',' :: r6 =>
                    match skipWs r6 with
                    | '"' :: r7 =>
                      match parseStrChars r7 with
                      | some (f2, r8) =>
                        if f2 = "status".data then
                          match skipWs r8 with
                          | ':' :: r9 =>
                            match statusCodec.parse (skipWs r9) with
                            | some (st, r10) =>
                              match skipWs r10 with
                              | '}' :: r11 =>
                                match st with
                                | .PENDING => some (ItemTypes.Pending ⟨⟨String.mk title, st⟩⟩, r11)
                                | .DONE => some (ItemTypes.Done ⟨⟨String.mk title, st⟩⟩, r11)
                              | _ => none
                            | none => none
                          | _ => none
                        else none
                      | none => none
                    | _ => none
                  | _ => none
                | none => none
              | _ => none
            | _ => none
          else none
        | none => none
      | _ => none
    | _ => none

/-! ### Lemmas: whitespace skipping -/

theorem skipWs_not_ws (c : Char) (l : List Char) (h : isWs c = false) :
    skipWs (c :: l) = c :: l := by
  simp [skipWs, h]

theorem skipWs_sp (l : List Char) : skipWs (' ' :: l) = skipWs l := rfl

theorem skipWs_nl (l : List Char) : skipWs ('\n' :: l) = skipWs l := rfl

theorem skipWs_colon (l : List Char) : skipWs (':' :: l) = ':' :: l := rfl

theorem skipWs_comma (l : List Char) : skipWs (',' :: l) = ',' :: l := rfl

theorem skipWs_quote (l : List Char) : skipWs ('"' :: l) = '"' :: l := rfl

theorem skipWs_rbrace (l : List Char) : skipWs ('}' :: l) = '}' :: l := rfl

theorem skipWs_lbrace (l : List Char) : skipWs ('{' :: l) = '{' :: l := rfl

/-! ### Lemmas: string escaping round-trips through the string parser -/

theorem unhex_hexDigit : ∀ n, n < 16 → unhex (hexDigit n) = some n := by decide

/-- The string parser consumes a closing quote and stops. -/
theorem parseStrChars_quote (rest : List Char) :
    parseStrChars ('"' :: rest) = some ([], rest) := by
  rw [parseStrChars.eq_def]
  simp only []
  rw [if_pos trivial]

/-- The string parser decodes a `\u00XX` escape back to its code point. -/
theorem parseStrChars_u (a b : Nat) (ha : a < 16) (hb : b < 16) (r : List Char) :
    parseStrChars ('\\' :: 'u' :: '0' :: '0' :: hexDigit a :: hexDigit b :: r) =
      match parseStrChars r with
      | some (s, rest) => some (Char.ofNat (a * 16 + b) :: s, rest)
      | none => none := by
  simp only [parseStrChars]
  rw [if_neg (by decide : ¬('\\' = '"'))]
  simp only [show unhex '0' = some 0 from rfl, unhex_hexDigit a ha, unhex_hexDigit b hb]
  have harith : ((0 * 16 + 0) * 16 + a) * 16 + b = a * 16 + b := by ring
  rw [harith, if_pos (by omega : a * 16 + b < 55296), if_pos trivial]

/-- Parsing one escaped character from the front of a string body consumes
exactly its escape sequence and yields the character back. -/
theorem parseStrChars_escapeChar (c : Char) (r : List Char) :
    parseStrChars (escapeChar c ++ r) =
      match parseStrChars r with
      | some (s, rest) => some (c :: s, rest)
      | none => none := by
  by_cases h1 : c = '"'
  · subst h1; rfl
  by_cases h2 : c = '\\'
  · subst h2; rfl
  by_cases h3 : c = '\n'
  · subst h3; rfl
  by_cases h4 : c = '\r'
  · subst h4; rfl
  by_cases h5 : c = '\t'
  · subst h5; rfl
  by_cases h6 : c.toNat = 8
  · have hc : c = Char.ofNat 8 := by rw [← h6, Char.ofNat_toNat]
    subst hc; rfl
  by_cases h7 : c.toNat = 12
  · have hc : c = Char.ofNat 12 := by rw [← h7, Char.ofNat_toNat]
    subst hc; rfl
  by_cases h8 : c.toNat < 32
  · have hesc : escapeChar c =
        ['\\', 'u', '0', '0', hexDigit (c.toNat / 16), hexDigit (c.toNat % 16)] := by
      simp [escapeChar, h1, h2, h3, h4, h5, h6, h7, h8]
    rw [hesc]
    simp only [List.cons_append, List.nil_append]
    rw [parseStrChars_u (c.toNat / 16) (c.toNat % 16) (by omega) (by omega)]
    have harith : c.toNat / 16 * 16 + c.toNat % 16 = c.toNat := by omega
    rw [harith, Char.ofNat_toNat]
  · have hesc : escapeChar c = [c] := by
      simp [escapeChar, h1, h2, h3, h4, h5, h6, h7, h8]
    rw [hesc]
    simp only [List.cons_append, List.nil_append]
    rw [parseStrChars.eq_def]
    simp only []
    rw [if_neg h1, if_neg h2, if_neg h8]

/-- Full escaping round-trip: the parser recovers an arbitrary escaped string
body and leaves exactly the input following the closing quote. -/
theorem parseStrChars_escape (s rest : List Char) :
    parseStrChars (escapeStr s ++ '"' :: rest) = some (s, rest) := by
  induction s with
  | nil =>
    simp only [escapeStr, List.map_nil, List.flatten_nil, List.nil_append]
    exact parseStrChars_quote rest
  | cons c s ih =>
    have h : escapeStr (c :: s) = escapeChar c ++ escapeStr s := by
      simp [escapeStr]
    rw [h, List.append_assoc, parseStrChars_escapeChar, ih]

/-! ### Lemmas: the canonical key order -/

theorem charsLt_irrefl : ∀ l, charsLt l l = false
  | [] => rfl
  | c :: r => by simp [charsLt, charsLt_irrefl r]

theorem charsLt_asymm : ∀ a b, charsLt a b = true → charsLt b a = false
  | [], [] => by simp [charsLt]
  | [], _ :: _ => by simp [charsLt]
  | _ :: _, [] => by simp [charsLt]
  | c₁ :: r₁, c₂ :: r₂ => by
    simp only [charsLt]
    by_cases h1 : c₁.toNat < c₂.toNat
    · intro _
      rw [if_neg (by omega), if_pos h1]
    · by_cases h2 : c₂.toNat < c₁.toNat
      · simp [h1, h2]
      · simp only [if_neg h1, if_neg h2]
        exact charsLt_asymm r₁ r₂

theorem keyLt_irrefl (a : String) : keyLt a a = false :=
  charsLt_irrefl a.data

theorem keyLt_asymm (a b : String) (h : keyLt a b = true) : keyLt b a = false :=
  charsLt_asymm a.data b.data h

theorem ne_of_keyLt (a b : String) (h : keyLt a b = true) : a ≠ b := by
  intro he
  subst he
  rw [keyLt_irrefl a] at h
  exact Bool.false_ne_true h

/-! ### Lemmas: the canonical association-list collection -/

theorem insertKV_append {T : Type} (k : String) (v : T) (acc : List (String × T))
    (hacc : ∀ e ∈ acc, keyLt e.1 k = true) :
    insertKV k v acc = acc ++ [(k, v)] := by
  induction acc with
  | nil => rfl
  | cons e acc ih =>
    obtain ⟨k₂, v₂⟩ := e
    have h2 : keyLt k₂ k = true := hacc (k₂, v₂) (List.mem_cons_self _ _)
    have hne : k ≠ k₂ := fun he => ne_of_keyLt k₂ k h2 he.symm
    have hlt : ¬ (keyLt k k₂ = true) := by
      rw [keyLt_asymm k₂ k h2]
      exact Bool.false_ne_true
    rw [insertKV, if_neg hne, if_neg hlt, ih (fun e he => hacc e (List.mem_cons_of_mem _ he)),
      List.cons_append]

theorem foldl_insertKV {T : Type} (m : List (String × T)) :
    ∀ acc, sortedKeys (acc ++ m) →
    m.foldl (fun a kv => insertKV kv.1 kv.2 a) acc = acc ++ m := by
  induction m with
  | nil => intro acc _; simp
  | cons kv m ih =>
    intro acc hs
    obtain ⟨k, v⟩ := kv
    have hcross := (List.pairwise_append.mp hs).2.2
    have hacc : ∀ e ∈ acc, keyLt e.1 k = true := fun e he =>
      hcross e he (k, v) (List.mem_cons_self _ _)
    have hs2 : sortedKeys ((acc ++ [(k, v)]) ++ m) := by
      rw [List.append_assoc, List.singleton_append]
      exact hs
    calc ((k, v) :: m).foldl (fun a kv => insertKV kv.1 kv.2 a) acc
        = m.foldl (fun a kv => insertKV kv.1 kv.2 a) (insertKV k v acc) := rfl
      _ = m.foldl (fun a kv => insertKV kv.1 kv.2 a) (acc ++ [(k, v)]) := by
          rw [insertKV_append k v acc hacc]
      _ = (acc ++ [(k, v)]) ++ m := ih (acc ++ [(k, v)]) hs2
      _ = acc ++ (k, v) :: m := by rw [List.append_assoc, List.singleton_append]

theorem removeKV_of_lookup_none {T : Type} (k : String) (m : List (String × T))
    (h : lookupKV k m = none) : removeKV k m = m := by
  induction m with
  | nil => rfl
  | cons e m ih =>
    obtain ⟨k₂, v₂⟩ := e
    by_cases he : k = k₂
    · rw [lookupKV, if_pos he] at h
      exact absurd h (by simp)
    · rw [lookupKV, if_neg he] at h
      rw [removeKV, if_neg he, ih h]

theorem lookupKV_insertKV_self {T : Type} (k : String) (v : T) (m : List (String × T)) :
    lookupKV k (insertKV k v m) = some v := by
  induction m with
  | nil => simp [insertKV, lookupKV]
  | cons e m ih =>
    obtain ⟨k₂, v₂⟩ := e
    by_cases he : k = k₂
    · rw [insertKV, if_pos he, lookupKV, if_pos rfl]
    · by_cases hlt : keyLt k k₂ = true
      · rw [insertKV, if_neg he, if_pos hlt, lookupKV, if_pos rfl]
      · rw [insertKV, if_neg he, if_neg hlt, lookupKV, if_neg he, ih]

/-! ### Lemmas: the object parser inverts the pretty-printer -/

theorem stringMk_data (s : String) : String.mk s.data = s := rfl

theorem entriesTail_quote {T : Type} (c : Codec T) (m : List (String × T)) (h : m ≠ []) :
    ∃ t, entriesTail c m = '"' :: t := by
  match m with
  | [] => exact absurd rfl h
  | [(k, v)] => exact ⟨_, rfl⟩
  | (k, v) :: e :: m => exact ⟨_, rfl⟩

theorem length_le_entriesTail {T : Type} (c : Codec T) :
    ∀ m : List (String × T), m.length ≤ (entriesTail c m).length
  | [] => by simp [entriesTail]
  | [(k, v)] => by simp [entriesTail, prettyKV]
  | (k, v) :: e :: m => by
    have ih := length_le_entriesTail c (e :: m)
    simp only [entriesTail, prettyKV, List.length_cons, List.length_append]
    simp only [List.length_cons] at ih
    omega

/-- Parsing the printed members of a non-empty canonical mapping, followed by
the closing `"\n}"` and arbitrary trailing input, recovers exactly the
mapping and the trailing input.  The fuel only needs to cover the number of
entries. -/
theorem parseMembers_entriesTail {T : Type} (c : Codec T) (hc : LawfulCodec c) :
    ∀ (m : List (String × T)) (fuel : Nat) (rest : List Char), m ≠ [] → m.length ≤ fuel →
    parseMembers c.parse fuel (entriesTail c m ++ '\n' :: '}' :: rest) = some (m, rest) := by
  intro m
  induction m with
  | nil => intro fuel rest h _; exact absurd rfl h
  | cons kv m ih =>
    intro fuel rest _ hfuel
    obtain ⟨k, v⟩ := kv
    cases fuel with
    | zero => simp at hfuel
    | succ f =>
      obtain ⟨ch, pr, hpr, hws⟩ := hc.pretty_head 1 v
      cases m with
      | nil =>
        have hskip : skipWs (c.pretty 1 v ++ '\n' :: '}' :: rest) =
            c.pretty 1 v ++ '\n' :: '}' :: rest := by
          rw [hpr, List.cons_append, skipWs_not_ws ch _ hws]
        rw [parseMembers.eq_def]
        simp only [entriesTail, prettyKV, List.cons_append, List.append_assoc]
        rw [parseStrChars_escape]
        simp only [skipWs_colon, skipWs_sp, hskip]
        rw [hc.parse_pretty 1 v ('\n' :: '}' :: rest) (Or.inr rfl)]
        simp only [skipWs_nl, skipWs_rbrace, stringMk_data]
      | cons e m2 =>
        have hne : e :: m2 ≠ [] := by simp
        have htail : entriesTail c ((k, v) :: e :: m2) =
            prettyKV c k v ++ ',' :: '\n' :: ' ' :: ' ' :: entriesTail c (e :: m2) := rfl
        have hskip : skipWs (c.pretty 1 v ++ ',' :: '\n' :: ' ' :: ' ' ::
            (entriesTail c (e :: m2) ++ '\n' :: '}' :: rest)) =
            c.pretty 1 v ++ ',' :: '\n' :: ' ' :: ' ' ::
            (entriesTail c (e :: m2) ++ '\n' :: '}' :: rest) := by
          rw [hpr, List.cons_append, skipWs_not_ws ch _ hws]
        obtain ⟨t2, ht2⟩ := entriesTail_quote c (e :: m2) hne
        rw [parseMembers.eq_def]
        rw [htail]
        simp only [prettyKV, List.cons_append, List.append_assoc]
        rw [parseStrChars_escape]
        simp only [skipWs_colon, skipWs_sp, hskip]
        rw [hc.parse_pretty 1 v (',' :: '\n' :: ' ' :: ' ' ::
          (entriesTail c (e :: m2) ++ '\n' :: '}' :: rest)) (Or.inl rfl)]
        simp only [skipWs_comma, skipWs_nl, skipWs_sp]
        rw [show skipWs (entriesTail c (e :: m2) ++ '\n' :: '}' :: rest) =
            entriesTail c (e :: m2) ++ '\n' :: '}' :: rest by
          rw [ht2, List.cons_append, skipWs_quote]]
        rw [ih f rest hne (by simp only [List.length_cons] at hfuel ⊢; omega)]

/-- Round-trip at the store level: deserializing the pretty-printed form of a
canonical mapping yields exactly that mapping (spec §8's round-trip
property at the serialization layer). -/
theorem fromStr_prettyMap {T : Type} (c : Codec T) (hc : LawfulCodec c)
    (m : List (String × T)) (hm : sortedKeys m) :
    fromStr c.parse (prettyMap c m) = some m := by
  cases m with
  | nil => rfl
  | cons kv m2 =>
    have hne : kv :: m2 ≠ [] := by simp
    obtain ⟨t, ht⟩ := entriesTail_quote c (kv :: m2) hne
    have hlen := length_le_entriesTail c (kv :: m2)
    unfold fromStr parseObj
    rw [show prettyMap c (kv :: m2) =
        '{' :: '\n' :: ' ' :: ' ' :: (entriesTail c (kv :: m2) ++ '\n' :: '}' :: []) from rfl, ht]
    simp only [List.cons_append, skipWs_lbrace, skipWs_nl, skipWs_sp, skipWs_quote]
    rw [show (match ('"' :: (t ++ ['\n', '}']) : List Char) with
        | '}' :: r2 => some (([] : List (String × T)), r2)
        | r1 => parseMembers c.parse (r1.length + 1) r1) =
        parseMembers c.parse (('"' :: (t ++ ['\n', '}'])).length + 1)
          ('"' :: (t ++ ['\n', '}'])) from rfl]
    rw [show ('"' :: (t ++ ['\n', '}']) : List Char) =
        entriesTail c (kv :: m2) ++ '\n' :: '}' :: [] by rw [ht]; simp]
    rw [parseMembers_entriesTail c hc (kv :: m2) _ [] hne (by
      rw [ht] at hlen ⊢
      simp only [List.length_append, List.length_cons] at hlen ⊢
      omega)]
    simp only []
    rw [if_pos (show skipWs ([] : List Char) = [] from rfl)]
    rw [foldl_insertKV (kv :: m2) [] (by simpa using hm)]
    simp

/-! ### Lawfulness of the concrete codecs -/

theorem boolCodec_lawful : LawfulCodec boolCodec := by
  constructor
  · intro ind t rest _
    cases t
    · show boolCodec.parse ("false".data ++ rest) = some (false, rest)
      rw [show ("false".data : List Char) = 'f' :: 'a' :: 'l' :: 's' :: 'e' :: [] from rfl]
      simp only [List.cons_append, List.nil_append, boolCodec]
    · show boolCodec.parse ("true".data ++ rest) = some (true, rest)
      rw [show ("true".data : List Char) = 't' :: 'r' :: 'u' :: 'e' :: [] from rfl]
      simp only [List.cons_append, List.nil_append, boolCodec]
  · intro ind t
    cases t
    · exact ⟨'f', "alse".data, rfl, rfl⟩
    · exact ⟨'t', "rue".data, rfl, rfl⟩

theorem statusCodec_lawful : LawfulCodec statusCodec := by
  constructor
  · intro ind t rest _
    cases t
    · show statusCodec.parse ("\"PENDING\"".data ++ rest) = some (.PENDING, rest)
      rw [show ("\"PENDING\"".data : List Char) =
        '"' :: (escapeStr "PENDING".data ++ '"' :: []) from by decide]
      simp only [List.cons_append, List.append_assoc, List.nil_append, statusCodec]
      rw [parseStrChars_escape]
      simp only []
      rw [if_pos trivial]
    · show statusCodec.parse ("\"DONE\"".data ++ rest) = some (.DONE, rest)
      rw [show ("\"DONE\"".data : List Char) =
        '"' :: (escapeStr "DONE".data ++ '"' :: []) from by decide]
      simp only [List.cons_append, List.append_assoc, List.nil_append, statusCodec]
      rw [parseStrChars_escape]
      simp only []
      rw [if_neg (by decide)]
      rw [if_pos trivial]
  · intro ind t
    cases t
    · exact ⟨'"', "PENDING\"".data, rfl, rfl⟩
    · exact ⟨'"', "DONE\"".data, rfl, rfl⟩

/-! ### Store-level helper lemmas -/

/-- Loading from a file whose content is exactly the canonical serialization
of `m` succeeds with `m` and leaves the file untouched. -/
theorem get_all_canonical {T : Type} (c : Codec T) (hc : LawfulCodec c)
    (m : List (String × T)) (hm : sortedKeys m) (w : Nat) :
    get_all c ⟨some (prettyMap c m), w⟩ = (.ok m, ⟨some (prettyMap c m), w⟩) := by
  unfold get_all
  rw [show fileContent ⟨some (prettyMap c m), w⟩ = prettyMap c m from rfl,
    fromStr_prettyMap c hc m hm]
  rfl

/-! ### Claim theorems -/

/-- C1 (counterexample): the claim says `create(title, status)` persists the
CONSTRUCTED ITEM under the title, so that a subsequent get-one of the title
returns that same item.  At the concrete input `create "a" PENDING` from a
fresh state, `create` succeeds and returns the pending item, but reading the
title back at the item's own serialized shape fails (the file holds the
serialized STATUS `"PENDING"`, not the item), so get-one does not return the
item. -/
theorem create_item_not_persisted :
    (create "a" TaskStatus.PENDING ⟨none, 0⟩).1 = .ok (ItemTypes.Pending (Pending.new "a")) ∧
    (get_one itemTypesCodec "a" (create "a" TaskStatus.PENDING ⟨none, 0⟩).2).1 ≠
      .ok (ItemTypes.Pending (Pending.new "a")) := by
  decide

/-- C1 (amended): for every title, status and state, `create(title, status)`
first persists the given STATUS under the title via `save_one` (its effect on
the store is exactly `save_one(title, status)`) and returns the tagged
variant matching the status, built from the title; from a fresh (absent-file)
state a subsequent `get_one` at the status type returns that status. -/
theorem create_persists_status (title : String) (st : TaskStatus) (s : FsState) :
    create title st s =
      (.ok (match st with
        | .PENDING => ItemTypes.Pending (Pending.new title)
        | .DONE => ItemTypes.Done (Done.new title)),
       (save_one statusCodec title st s).2) ∧
    (s.file = none →
      (get_one statusCodec title (create title st s).2).1 = .ok st) := by
  constructor
  · cases st <;> rfl
  · intro hnone
    have hstate : (create title st s).2 = (save_one statusCodec title st s).2 := by
      cases st <;> rfl
    rw [hstate]
    have hga : get_all statusCodec s = (.error .formatError, ⟨some [], s.writes⟩) := by
      unfold get_all
      rw [show fileContent s = [] from by rw [fileContent, hnone]; rfl]
      rw [show fromStr statusCodec.parse ([] : List Char) = none from rfl]
      rw [get_handle, show fileContent s = [] from by rw [fileContent, hnone]; rfl]
    have hsave : (save_one statusCodec title st s).2 =
        ⟨some (prettyMap statusCodec [(title, st)]), s.writes + 1⟩ := by
      unfold save_one
      rw [hga]
      show (save_all statusCodec (insertKV title st []) ⟨some [], s.writes⟩).2 = _
      unfold save_all
      simp [fileContent, insertKV]
    rw [hsave]
    unfold get_one
    rw [get_all_canonical statusCodec statusCodec_lawful [(title, st)]
      (by simp [sortedKeys]) (s.writes + 1)]
    simp [lookupKV]

/-- C1 (amended, witness): the amended claim at `create "a" PENDING` from the
fresh state. -/
theorem create_persists_status_witness :
    (get_one statusCodec "a" (create "a" TaskStatus.PENDING ⟨none, 0⟩).2).1 =
      .ok TaskStatus.PENDING :=
  (create_persists_status "a" TaskStatus.PENDING ⟨none, 0⟩).2 rfl

/-- C2 (code bug): the claim — and `save_all`'s own doc comment ("overwrites
the file content") — promise that after a successful write the file's entire
content deserializes back to the written mapping.  The handle is opened
without truncation, so at the concrete prior content `{\n  "a": false\n}`,
`save_all` of the EMPTY map succeeds but leaves `{}` followed by the old
tail, and a subsequent load-all fails with a format error instead of
returning the empty map. -/
theorem save_all_no_truncate_bug :
    ((save_all boolCodec [] ⟨some (prettyMap boolCodec [("a", false)]), 0⟩).1 = .ok ()) ∧
    ((get_all boolCodec
        (save_all boolCodec [] ⟨some (prettyMap boolCodec [("a", false)]), 0⟩).2).1 =
      .error .formatError) := by
  decide

/-- C3 (code bug): the claim promises `save_one("a", X)` then
`save_one("a", Y)` makes `get_one("a")` return `Y`.  Starting from no file,
storing `false` then overwriting with the shorter `true` leaves a stray `}`
from the first serialization after the second write (no truncation), so
`get_one` fails with a format error rather than returning `true`. -/
theorem overwrite_semantics_bug :
    ((save_one boolCodec "a" true
        (save_one boolCodec "a" false ⟨none, 0⟩).2).1 = .ok ()) ∧
    ((get_one boolCodec "a"
        (save_one boolCodec "a" true (save_one boolCodec "a" false ⟨none, 0⟩).2).2).1 =
      .error .formatError) := by
  decide

/-- C4: `save_one` and `delete_one` never propagate a load failure — each one
is exactly "load-all, substitute the empty mapping on any failure,
insert/remove, save-all", and (since serialization of well-formed items and
the modelled write succeed) each succeeds exactly when its final `save_all`
does, which is always. -/
theorem save_delete_fallback_to_empty {T : Type} (c : Codec T) (id : String) (t : T)
    (s : FsState) :
    (save_one c id t s).1 = .ok () ∧ (delete_one c id s).1 = .ok () ∧
    save_one c id t s =
      save_all c (insertKV id t (unwrapOrEmpty (get_all c s).1)) (get_all c s).2 ∧
    delete_one c id s =
      save_all c (removeKV id (unwrapOrEmpty (get_all c s).1)) (get_all c s).2 :=
  ⟨rfl, rfl, rfl, rfl⟩

/-- C5: whenever the file's content is not a valid serialization of a
mapping, load-all fails with a format error; in particular the empty content
is invalid (`fromStr` rejects it), so an empty file fails rather than
yielding the empty mapping. -/
theorem load_all_empty_or_invalid_fails {T : Type} (c : Codec T) (s : FsState)
    (h : fromStr c.parse (fileContent s) = none) :
    (get_all c s).1 = .error .formatError ∧ fromStr c.parse ([] : List Char) = none := by
  refine ⟨?_, rfl⟩
  unfold get_all
  rw [h]

/-- C5 (witness): load-all on an existing but empty file fails with the
format error. -/
theorem load_all_empty_or_invalid_fails_witness :
    (get_all boolCodec ⟨some [], 0⟩).1 = .error .formatError :=
  (load_all_empty_or_invalid_fails boolCodec ⟨some [], 0⟩ rfl).1

/-- C6: for an id absent from the stored mapping (file holding the canonical
serialization of `m`), `get_one` fails with the not-found error, while
`delete_one` succeeds as a no-op and leaves the stored content unchanged. -/
theorem missing_key_behavior {T : Type} (c : Codec T) (m : List (String × T)) (id : String)
    (w : Nat) (hc : LawfulCodec c) (hm : sortedKeys m) (hid : lookupKV id m = none) :
    (get_one c id ⟨some (prettyMap c m), w⟩).1 = .error (.notFound id) ∧
    (delete_one c id ⟨some (prettyMap c m), w⟩).1 = .ok () ∧
    (delete_one c id ⟨some (prettyMap c m), w⟩).2.file = some (prettyMap c m) := by
  refine ⟨?_, rfl, ?_⟩
  · unfold get_one
    rw [get_all_canonical c hc m hm w]
    simp only []
    rw [hid]
  · unfold delete_one
    rw [get_all_canonical c hc m hm w]
    show (save_all c (removeKV id m) ⟨some (prettyMap c m), w⟩).2.file = _
    rw [removeKV_of_lookup_none id m hid]
    unfold save_all
    simp [fileContent, List.drop_length]

/-- C6 (witness): at the stored mapping `{"b": true}` and the absent id
`"a"`. -/
theorem missing_key_behavior_witness :
    (get_one boolCodec "a" ⟨some (prettyMap boolCodec [("b", true)]), 0⟩).1 =
      .error (.notFound "a") ∧
    (delete_one boolCodec "a" ⟨some (prettyMap boolCodec [("b", true)]), 0⟩).1 = .ok () ∧
    (delete_one boolCodec "a" ⟨some (prettyMap boolCodec [("b", true)]), 0⟩).2.file =
      some (prettyMap boolCodec [("b", true)]) :=
  missing_key_behavior boolCodec [("b", true)] "a" 0 boolCodec_lawful (by decide) (by decide)

/-- C7 (code bug): the claim promises that `save_one(id, X)` twice leaves the
stored state identical to calling it once.  From the stored mapping
`{"a": false, "b": false}`, storing `("a", true)` once writes a shorter
serialization over the longer prior content (no truncation), corrupting the
file; the second identical call then loads nothing, falls back to the empty
mapping and writes `{"a": true}` over the corrupted content — a different
file than after one call. -/
theorem upsert_idempotence_bug :
    (save_one boolCodec "a" true
        (save_one boolCodec "a" true
          ⟨some (prettyMap boolCodec [("a", false), ("b", false)]), 0⟩).2).2.file ≠
      (save_one boolCodec "a" true
        ⟨some (prettyMap boolCodec [("a", false), ("b", false)]), 0⟩).2.file := by
  decide

/-- C8: with no backing file present, `save_one x v` succeeds and produces a
file whose content is exactly the serialization of the one-entry mapping
`{x: v}`, which deserializes back to exactly that mapping. -/
theorem fresh_file_bootstrap {T : Type} (c : Codec T) (x : String) (v : T) (w : Nat)
    (hc : LawfulCodec c) :
    (save_one c x v ⟨none, w⟩).1 = .ok () ∧
    (save_one c x v ⟨none, w⟩).2.file = some (prettyMap c [(x, v)]) ∧
    fromStr c.parse (prettyMap c [(x, v)]) = some [(x, v)] := by
  refine ⟨rfl, ?_, fromStr_prettyMap c hc [(x, v)] (by simp [sortedKeys])⟩
  have hga : get_all c ⟨none, w⟩ = (.error .formatError, ⟨some [], w⟩) := by
    unfold get_all
    rw [show fileContent ⟨none, w⟩ = [] from rfl]
    rw [show fromStr c.parse ([] : List Char) = none from rfl]
    rfl
  show (save_all c (insertKV x v (unwrapOrEmpty (get_all c ⟨none, w⟩).1))
      (get_all c ⟨none, w⟩).2).2.file = _
  rw [hga]
  show (save_all c (insertKV x v []) ⟨some [], w⟩).2.file = _
  unfold save_all
  simp [fileContent, insertKV]

/-- C8 (witness): the fresh-file bootstrap at `save_one "x" true`. -/
theorem fresh_file_bootstrap_witness :
    (save_one boolCodec "x" true ⟨none, 0⟩).1 = .ok () ∧
    (save_one boolCodec "x" true ⟨none, 0⟩).2.file = some (prettyMap boolCodec [("x", true)]) ∧
    fromStr boolCodec.parse (prettyMap boolCodec [("x", true)]) = some [("x", true)] :=
  fresh_file_bootstrap boolCodec "x" true 0 boolCodec_lawful

/-- C9: rendering either tagged variant over any payload produces exactly the
payload's title, independent of the variant. -/
theorem display_renders_title (b : Base) :
    (ItemTypes.Pending ⟨b⟩).display = b.title ∧ (ItemTypes.Done ⟨b⟩).display = b.title :=
  ⟨rfl, rfl⟩

/-- C10: `delete_one` always ends in a full serialize-and-write — the write
counter always advances by exactly one and the resulting file content is
exactly `save_all`'s overwrite-a-prefix result, for every id and prior state,
including an id absent from the loaded collection. -/
theorem delete_one_always_writes {T : Type} (c : Codec T) (id : String) (s : FsState) :
    (delete_one c id s).2.writes = s.writes + 1 ∧
    (delete_one c id s).2.file =
      some (prettyMap c (removeKV id (unwrapOrEmpty (get_all c s).1)) ++
        (fileContent s).drop
          (prettyMap c (removeKV id (unwrapOrEmpty (get_all c s).1))).length) :=
  ⟨rfl, rfl⟩

end WebTodo
